import Mathlib

/-!
Verification of the interning engine of this repository.

The sources modelled here:
* `src/intern.py` — metaclass `Intern`: `_InternObj`, `Instance` (register),
  the installed `delFn` (`__del__`, unregister).  The table maps `hash(obj)`
  to either a single `_InternObj` or a list of them.
* `src/internbase.py` — module-level `MakeInterned` with its `isinstance` guard.
* `src/py36/intern/intern.py` — `_details.KeyTuple`, `_details.RegisterObj`,
  `_details.UnregisterObj`: the table maps key tuples to single weak references.
* `src/py36/intern/support.py` — `UnregisterObj` over a hash-keyed table whose
  values are a weak reference or a list of weak references.
* `src/py36/intern/internable.py` — `Internable.isInterned`.

Embedding conventions: objects are named by numeric identities (`id(obj)`).
A heap `Nat → Option V` gives, for each identity, the content of the object
when it is alive and `none` once it is dead; dereferencing a weak reference
`weakref.ref(obj)()` is `heap objID`.  Python's content equality `==` is
decidable equality on the content type `V` (with `x == None` being false for
a live value, as for any well-behaved `__eq__`).  Dictionaries are
association lists keyed in insertion order, matching Python dict semantics
(assignment to a present key replaces in place, to an absent key appends).
-/

/-- Python exceptions that the modelled code can raise. -/
inductive PyErr where
  | valueError : PyErr
  | nameError : PyErr
  | typeError : PyErr
deriving DecidableEq, Repr

namespace Intern

/-- Record kept by the metaclass `Intern` for each tracked object
(`_InternObj` in `src/intern.py`): the stable `objID` (`id(obj)`).  Its
`wkRef` weak reference is modelled by consulting the heap at `objID`. -/
structure InternObj where
  objID : Nat
deriving DecidableEq, Repr

/-- A value of `Intern.__gInternDict`: "typically an `_InternObj`, but in the
unlikely event of a hash value collision, it may be a list of `_InternObj`". -/
inductive Slot where
  | single : InternObj → Slot
  | list : List InternObj → Slot
deriving DecidableEq, Repr

/-- `Intern.__gInternDict`: hash value to slot, in insertion order. -/
abbrev HDict := List (Nat × Slot)

/-- `dct.get(h, None)`. -/
def hlookup : HDict → Nat → Option Slot
  | [], _ => none
  | (k, s) :: rest, h => if k = h then some s else hlookup rest h

/-- `dct[h] = s`: replace the binding if the key is present, append otherwise. -/
def hinsert : HDict → Nat → Slot → HDict
  | [], h, s => [(h, s)]
  | (k, t) :: rest, h, s =>
      if k = h then (k, s) :: rest else (k, t) :: hinsert rest h s

/-- `del dct[h]` (also `dct.pop(h, None)`): drop the binding for `h`. -/
def herase : HDict → Nat → HDict
  | [], _ => []
  | (k, t) :: rest, h => if k = h then rest else (k, t) :: herase rest h

/-- The scan in `Instance`'s list branch: the first entry whose weak
reference resolves to an object content-equal to the candidate
(`newObj == subEntry.wkRef()`; comparison with a dead reference's `None`
is false). -/
def findLive {V : Type} [DecidableEq V] (heap : Nat → Option V) (v : V) :
    List InternObj → Option InternObj
  | [] => none
  | o :: rest =>
      match heap o.objID with
      | some w => if v = w then some o else findLive heap v rest
      | none => findLive heap v rest

/-- The scan in `delFn`'s list branch: `del entry[i]` for the first `i` with
`id(self) == entry[i].objID`, then return. -/
def removeById : List InternObj → Nat → List InternObj
  | [], _ => []
  | o :: rest, i => if o.objID = i then rest else o :: removeById rest i

/-- `Intern.Instance` from `src/intern.py`.  The candidate `newObj` has
already been allocated: it is the live object `newId` with content `v`.
Returns `((returned object, wasNew), updated table)`.  The branches follow
the source: a missing or falsy entry (`None`, or an empty list) installs a
fresh singleton `_InternObj`; a list is scanned for a content-equal live
entry, else the new record is appended; a single `_InternObj` is returned
when its referent is live and content-equal, and otherwise (content-unequal
or dead, since `newObj == None` is false) the slot becomes a two-element
list of the old record and the new one. -/
def Instance {V : Type} [DecidableEq V] (hashv : V → Nat) (heap : Nat → Option V)
    (dct : HDict) (newId : Nat) (v : V) : (Nat × Bool) × HDict :=
  let hashVal := hashv v
  match hlookup dct hashVal with
  | some (.list l) =>
      if l.isEmpty then ((newId, true), hinsert dct hashVal (.single ⟨newId⟩))
      else
        match findLive heap v l with
        | some o => ((o.objID, false), dct)
        | none => ((newId, true), hinsert dct hashVal (.list (l ++ [⟨newId⟩])))
  | some (.single o) =>
      match heap o.objID with
      | some w =>
          if v = w then ((o.objID, false), dct)
          else ((newId, true), hinsert dct hashVal (.list [o, ⟨newId⟩]))
      | none => ((newId, true), hinsert dct hashVal (.list [o, ⟨newId⟩]))
  | none => ((newId, true), hinsert dct hashVal (.single ⟨newId⟩))

/-- The `delFn` that `Intern.__init__` installs as `__del__` in
`src/intern.py`.  `selfId` is `id(self)` and `v` the (still readable)
content of the dying object.  A list entry loses the first record whose
`objID` matches (the possibly shortened or empty list stays in the table);
a single record whose `objID` matches has its key deleted; a missing or
non-matching entry is left alone. -/
def delFn {V : Type} [DecidableEq V] (hashv : V → Nat) (dct : HDict)
    (selfId : Nat) (v : V) : HDict :=
  let hashVal := hashv v
  match hlookup dct hashVal with
  | some (.list l) => hinsert dct hashVal (.list (removeById l selfId))
  | some (.single o) => if selfId = o.objID then herase dct hashVal else dct
  | none => dct

/-- Entries of a slot, for stating the at-most-one-live-canonical invariant. -/
def slotEntries : Slot → List InternObj
  | .single o => [o]
  | .list l => l

/-- Two table records never both resolve to content-equal live objects. -/
def LiveDistinct {V : Type} (heap : Nat → Option V) (a b : InternObj) : Prop :=
  ∀ va vb, heap a.objID = some va → heap b.objID = some vb → va ≠ vb

/-- Invariant I3: in every slot of the table, no two records have live,
content-equal referents — at most one live canonical per content key. -/
def NoDupLive {V : Type} (heap : Nat → Option V) (d : HDict) : Prop :=
  ∀ p ∈ d, (slotEntries p.2).Pairwise (LiveDistinct heap)

end Intern

namespace InternBase

/-- Modelled from the source `src/internbase.py`, `MakeInterned`.  The input
bool is `isinstance(cls, InternBase)`.  When the guard fails the function
raises `ValueError` before constructing or registering anything.  When the
guard passes, the very next statement `newObj = cls(*argv, **argd)` reads
the unbound names `argv`/`argd` (the parameters are `args`/`kwargs`), so
that path raises `NameError` before any table access; the table is
therefore never touched on any path.  The result pairs the outcome (a
normal return would carry the object's identity) with the table as the
call leaves it. -/
def MakeInterned (clsIsInternBaseInstance : Bool) (dct : Intern.HDict) :
    Except PyErr Nat × Intern.HDict :=
  if clsIsInternBaseInstance = false then (.error .valueError, dct)
  else (.error .nameError, dct)

end InternBase

namespace Support

/-- A value of the `src/py36/intern/support.py` table: a weak reference, or
a list of weak references (each held as the referent's identity). -/
inductive SVal where
  | ref : Nat → SVal
  | list : List Nat → SVal
deriving DecidableEq, Repr

/-- The support-module table: `hash(obj)` to `SVal`. -/
abbrev SDict := List (Nat × SVal)

/-- `dct[key]` lookup. -/
def slookup : SDict → Nat → Option SVal
  | [], _ => none
  | (k, s) :: rest, h => if k = h then some s else slookup rest h

/-- `del dct[key]`. -/
def serase : SDict → Nat → SDict
  | [], _ => []
  | (k, t) :: rest, h => if k = h then rest else (k, t) :: serase rest h

/-- `UnregisterObj` from `src/py36/intern/support.py`.  The `obj` being
removed has content `v`.  A missing key is a no-op (`except KeyError:
pass`).  A single reference is compared by content (`obj == val()`) and its
key deleted on a match.  In the list branch the source compares
`obj == val()` inside `for i, r in enumerate(val)` — `val` is the list
itself, so the first iteration calls a list object and raises `TypeError`;
only an empty list avoids the call (the loop body never runs). -/
def UnregisterObj {V : Type} [DecidableEq V] (hashv : V → Nat)
    (heap : Nat → Option V) (dct : SDict) (v : V) : Except PyErr SDict :=
  let key := hashv v
  match slookup dct key with
  | none => .ok dct
  | some (.ref r) =>
      match heap r with
      | some w => if v = w then .ok (serase dct key) else .ok dct
      | none => .ok dct
  | some (.list rs) =>
      match rs with
      | [] => .ok dct
      | _ :: _ => .error .typeError

end Support

namespace Py36

/-- Runtime types relevant to `_details.KeyTuple`: the opaque built-ins
(represented by `tint`), `list`, `tuple`, `dict`, and user classes
(numbered). -/
inductive PyType where
  | tint : PyType
  | tlist : PyType
  | ttuple : PyType
  | tdict : PyType
  | tcls : Nat → PyType
deriving DecidableEq, Repr

mutual
/-- The Python values handled by `_details.KeyTuple`
(`src/py36/intern/intern.py`): opaque hashable atoms (ints), lists, tuples,
dicts (ordered key/value entries), user-class instances exposing an
`astuple()` decomposition (`pyobjT`, with class number and field list) and
opaque user-class instances without one (`pyopq`, with class number and
opaque payload).  Sub-value lists and dict entry lists are the mutual
inductives `PyList` and `PyKVs`. -/
inductive PyVal where
  | atom : Nat → PyVal
  | pylist : PyList → PyVal
  | pytuple : PyList → PyVal
  | pydict : PyKVs → PyVal
  | pyobjT : Nat → PyList → PyVal
  | pyopq : Nat → Nat → PyVal
deriving Repr
/-- An ordered sequence of Python sub-values. -/
inductive PyList where
  | nil : PyList
  | cons : PyVal → PyList → PyList
deriving Repr
/-- The ordered `items()` view of a Python dict: key/value entry pairs. -/
inductive PyKVs where
  | nil : PyKVs
  | cons : PyVal → PyVal → PyKVs → PyKVs
deriving Repr
end

mutual
/-- Python `==` on modelled values: structural content equality, false
across different runtime types (a list never equals a tuple or a dict). -/
def PyVal.beq : PyVal → PyVal → Bool
  | .atom a, .atom b => a == b
  | .pylist xs, .pylist ys => PyList.beq xs ys
  | .pytuple xs, .pytuple ys => PyList.beq xs ys
  | .pydict xs, .pydict ys => PyKVs.beq xs ys
  | .pyobjT n fs, .pyobjT m gs => n == m && PyList.beq fs gs
  | .pyopq n c, .pyopq m d => n == m && c == d
  | _, _ => false
/-- Elementwise `==` on value sequences. -/
def PyList.beq : PyList → PyList → Bool
  | .nil, .nil => true
  | .cons x xs, .cons y ys => PyVal.beq x y && PyList.beq xs ys
  | _, _ => false
/-- Entrywise `==` on dict entry sequences. -/
def PyKVs.beq : PyKVs → PyKVs → Bool
  | .nil, .nil => true
  | .cons k v xs, .cons l w ys => PyVal.beq k l && PyVal.beq v w && PyKVs.beq xs ys
  | _, _ => false
end

mutual
/-- A key tuple as built by `_details.KeyTuple`: an element is a runtime
type tag, an embedded sub-value (`obj` when `recursing`), a weak reference
to the top-level object (`ref(obj)`, held as the referent's identity), or a
nested tuple. -/
inductive Key where
  | typeTag : PyType → Key
  | objVal : PyVal → Key
  | wref : Nat → Key
  | tup : KeyList → Key
deriving Repr
/-- The elements of a key tuple, in order. -/
inductive KeyList where
  | nil : KeyList
  | cons : Key → KeyList → KeyList
deriving Repr
end

/-- Append one element at the end of a key tuple (the trailing type tag
yielded by `genElems`). -/
def KeyList.snoc : KeyList → Key → KeyList
  | .nil, k => .cons k .nil
  | .cons a as, k => .cons a (as.snoc k)

/-- Key-tuple elements as a `List`, for reuse of list lemmas. -/
def KeyList.toList : KeyList → List Key
  | .nil => []
  | .cons k ks => k :: ks.toList

mutual
/-- `_details.KeyTuple` from `src/py36/intern/intern.py`.  `selfId` is the
identity of the object the key is being derived for.  A value with an
`astuple()` decomposition, a list or a tuple maps to the tuple of its
recursively derived sub-keys with the runtime type appended last
(`genElems`); a dict is decomposed via its `items()` entry pairs
(`genItems`); any other value is opaque: it is returned in a pair with its
type, embedded by value when `recursing` and as `ref(obj)` (a weak
reference to the top-level candidate) otherwise. -/
def KeyTuple (selfId : Nat) : PyVal → Bool → Key
  | .pyobjT n fields, _ => .tup ((genElems selfId fields).snoc (.typeTag (.tcls n)))
  | .pylist xs, _ => .tup ((genElems selfId xs).snoc (.typeTag .tlist))
  | .pytuple xs, _ => .tup ((genElems selfId xs).snoc (.typeTag .ttuple))
  | .pydict kvs, _ => .tup ((genItems selfId kvs).snoc (.typeTag .tdict))
  | .atom a, r =>
      .tup (.cons (if r then .objVal (.atom a) else .wref selfId)
        (.cons (.typeTag .tint) .nil))
  | .pyopq n c, r =>
      .tup (.cons (if r then .objVal (.pyopq n c) else .wref selfId)
        (.cons (.typeTag (.tcls n)) .nil))
/-- The recursive sub-key elements `genElems` yields for a sequence of
sub-values (the trailing type element is appended by the caller). -/
def genElems (selfId : Nat) : PyList → KeyList
  | .nil => .nil
  | .cons e rest => .cons (KeyTuple selfId e true) (genElems selfId rest)
/-- The sub-key elements for a dict's `items()`: each entry pair is itself
keyed as the 2-tuple `(key, value)`, i.e. the tuple of the two recursively
derived sub-keys with the `tuple` type tag appended (the theorem
`keytuple_items_as_pairs` below checks this equals `KeyTuple` of the
corresponding 2-tuple value). -/
def genItems (selfId : Nat) : PyKVs → KeyList
  | .nil => .nil
  | .cons k v rest =>
      .cons (.tup (.cons (KeyTuple selfId k true)
          (.cons (KeyTuple selfId v true) (.cons (.typeTag .ttuple) .nil))))
        (genItems selfId rest)
end

mutual
/-- Python `==` on key tuples, as used by dict lookup on `__gDict`.  Type
tags compare by type equality, embedded sub-values by content equality,
and weak references by the equality `weakref.ref` defines: referent
content equality when both referents are alive.  When either referent is
dead, distinct reference objects compare by identity, and the probe key's
reference is always freshly created, so the comparison is false. -/
def keyEq (heap : Nat → Option PyVal) : Key → Key → Bool
  | .typeTag t, .typeTag u => t == u
  | .objVal v, .objVal w => PyVal.beq v w
  | .wref i, .wref j =>
      match heap i, heap j with
      | some vi, some vj => PyVal.beq vi vj
      | _, _ => false
  | .tup ks, .tup ls => keysEq heap ks ls
  | _, _ => false
/-- Elementwise key-tuple equality. -/
def keysEq (heap : Nat → Option PyVal) : KeyList → KeyList → Bool
  | .nil, .nil => true
  | .cons k ks, .cons l ls => keyEq heap k l && keysEq heap ks ls
  | _, _ => false
end

/-- The `_details` internment dictionary: key tuple to a weak reference
(held as the referent's identity), in insertion order. -/
abbrev KDict := List (Key × Nat)

/-- `dct[tup]` lookup: the first binding whose key compares equal. -/
def klookup (heap : Nat → Option PyVal) : KDict → Key → Option Nat
  | [], _ => none
  | (k, r) :: rest, tup => if keyEq heap tup k then some r else klookup heap rest tup

/-- `dct.pop(tup, None)`: drop the binding whose key compares equal, if any. -/
def kerase (heap : Nat → Option PyVal) : KDict → Key → KDict
  | [], _ => []
  | (k, r) :: rest, tup =>
      if keyEq heap tup k then rest else (k, r) :: kerase heap rest tup

/-- `_details.RegisterObj` from `src/py36/intern/intern.py`.  The candidate
is the live object `objId` with content `obj`.  When the key tuple is
present the function returns `dct[tup]()` — the dereferenced weak
reference, which is the referent when it is alive and Python `None`
(modelled `none`) when it has died; the table is not modified either way.
On `KeyError` the candidate is installed and returned. -/
def RegisterObj (heap : Nat → Option PyVal) (dct : KDict) (objId : Nat)
    (obj : PyVal) : Option Nat × KDict :=
  let tup := KeyTuple objId obj false
  match klookup heap dct tup with
  | some r =>
      match heap r with
      | some _ => (some r, dct)
      | none => (none, dct)
  | none => (some objId, dct ++ [(tup, objId)])

/-- `_details.UnregisterObj` from `src/py36/intern/intern.py`: recompute the
key tuple of the dying object `objId` (content `obj`) and `pop` it. -/
def UnregisterObj (heap : Nat → Option PyVal) (dct : KDict) (objId : Nat)
    (obj : PyVal) : KDict :=
  kerase heap dct (KeyTuple objId obj false)

/-- `Internable.isInterned` from `src/py36/intern/internable.py`: recompute
the key tuple of `self` (the live object `objId` with content `obj`) and
test `tup in self.__gDict` — bare key membership, with no check that the
stored reference resolves to `self`. -/
def isInterned (heap : Nat → Option PyVal) (dct : KDict) (objId : Nat)
    (obj : PyVal) : Bool :=
  (klookup heap dct (KeyTuple objId obj false)).isSome

end Py36

/-- A composite value with an `astuple()` decomposition (class 0, one
field `7`): its key tuple embeds the field by value and contains no weak
reference, so the key of a content-equal object is the same whatever the
object's identity. -/
def vComposite : Py36.PyVal := .pyobjT 0 (.cons (.atom 7) .nil)

/-- A `_details` table holding the canonical object 1 under the key tuple
of `vComposite`. -/
def dK1 : Py36.KDict := [(Py36.KeyTuple 1 vComposite false, 1)]

/-- Heap in which object 1 (the table's referent) has died while candidate
object 2 is live with equal content. -/
def heapC2 : Nat → Option Py36.PyVal :=
  fun i => if i = 2 then some vComposite else none

/-- Heap in which the canonical object 1 and a second content-equal object
2 are both live. -/
def heapLive : Nat → Option Py36.PyVal :=
  fun i => if i = 1 ∨ i = 2 then some vComposite else none

/-- Heap for the C5 witness: object 1 is live with content 10, object 2 is
live with content 20, everything else is dead. -/
def heapC5 : Nat → Option Nat :=
  fun i => if i = 1 then some 10 else if i = 2 then some 20 else none

/-- Heap for the C6 witness: objects 0 through 9 are live, with contents
equal to their identities. -/
def heapW : Nat → Option Nat :=
  fun i => if i < 10 then some i else none

namespace Intern

theorem hlookup_hinsert_self (d : HDict) (h : Nat) (s : Slot) :
    hlookup (hinsert d h s) h = some s := by
  induction d with
  | nil => simp [hinsert, hlookup]
  | cons p rest ih =>
    obtain ⟨k, t⟩ := p
    by_cases hk : k = h
    · subst hk; simp [hinsert, hlookup]
    · simp [hinsert, hlookup, hk, ih]

theorem hlookup_hinsert_ne (d : HDict) (h h' : Nat) (s : Slot) (hne : h' ≠ h) :
    hlookup (hinsert d h s) h' = hlookup d h' := by
  induction d with
  | nil => simp [hinsert, hlookup, Ne.symm hne]
  | cons p rest ih =>
    obtain ⟨k, t⟩ := p
    by_cases hk : k = h
    · subst hk; simp [hinsert, hlookup, Ne.symm hne]
    · by_cases hk' : k = h' <;> simp [hinsert, hlookup, hk, hk', hne, ih]

theorem mem_hinsert {d : HDict} {h : Nat} {s : Slot} {p : Nat × Slot}
    (hp : p ∈ hinsert d h s) : p ∈ d ∨ p = (h, s) := by
  induction d with
  | nil => simp [hinsert] at hp; simp [hp]
  | cons q rest ih =>
    obtain ⟨k, t⟩ := q
    by_cases hk : k = h
    · subst hk
      simp only [hinsert, if_pos rfl] at hp
      rcases List.mem_cons.mp hp with h1 | h1
      · exact .inr (by simp [h1])
      · exact .inl (List.mem_cons_of_mem _ h1)
    · simp only [hinsert, if_neg hk] at hp
      rcases List.mem_cons.mp hp with h1 | h1
      · exact .inl (by simp [h1])
      · rcases ih h1 with h2 | h2
        · exact .inl (List.mem_cons_of_mem _ h2)
        · exact .inr h2

theorem mem_herase {d : HDict} {h : Nat} {p : Nat × Slot}
    (hp : p ∈ herase d h) : p ∈ d := by
  induction d with
  | nil => simp [herase] at hp
  | cons q rest ih =>
    obtain ⟨k, t⟩ := q
    by_cases hk : k = h
    · subst hk
      simp only [herase, if_pos rfl] at hp
      exact List.mem_cons_of_mem _ hp
    · simp only [herase, if_neg hk] at hp
      rcases List.mem_cons.mp hp with h1 | h1
      · exact by simp [h1]
      · exact List.mem_cons_of_mem _ (ih h1)

theorem hlookup_mem {d : HDict} {h : Nat} {s : Slot}
    (hl : hlookup d h = some s) : (h, s) ∈ d := by
  induction d with
  | nil => simp [hlookup] at hl
  | cons q rest ih =>
    obtain ⟨k, t⟩ := q
    by_cases hk : k = h
    · subst hk
      simp [hlookup] at hl
      rw [← hl]
      exact List.mem_cons_self _ _
    · simp [hlookup, hk] at hl
      exact List.mem_cons_of_mem _ (ih hl)

theorem findLive_some {V : Type} [DecidableEq V] {heap : Nat → Option V}
    {v : V} {l : List InternObj} {o : InternObj}
    (hf : findLive heap v l = some o) : heap o.objID = some v := by
  induction l with
  | nil => simp [findLive] at hf
  | cons a rest ih =>
    rcases hw : heap a.objID with _ | w
    · exact ih (by simpa [findLive, hw] using hf)
    · by_cases hv : v = w
      · subst hv
        simp [findLive, hw] at hf
        rw [← hf]
        exact hw
      · exact ih (by simpa [findLive, hw, hv] using hf)

theorem findLive_none {V : Type} [DecidableEq V] {heap : Nat → Option V}
    {v : V} {l : List InternObj} (hf : findLive heap v l = none) :
    ∀ o ∈ l, ∀ w, heap o.objID = some w → v ≠ w := by
  induction l with
  | nil => simp
  | cons a rest ih =>
    intro o ho w hw hvw
    subst hvw
    rcases List.mem_cons.mp ho with h1 | h1
    · subst h1
      simp [findLive, hw] at hf
    · rcases ha : heap a.objID with _ | wa
      · exact ih (by simpa [findLive, ha] using hf) o h1 v hw rfl
      · by_cases hv : v = wa
        · subst hv; simp [findLive, ha] at hf
        · exact ih (by simpa [findLive, ha, hv] using hf) o h1 v hw rfl

theorem findLive_append {V : Type} [DecidableEq V] (heap : Nat → Option V)
    (v : V) {l : List InternObj} (l' : List InternObj)
    (hf : findLive heap v l = none) :
    findLive heap v (l ++ l') = findLive heap v l' := by
  induction l with
  | nil => simp
  | cons a rest ih =>
    rcases ha : heap a.objID with _ | wa
    · simpa [findLive, ha] using ih (by simpa [findLive, ha] using hf)
    · by_cases hv : v = wa
      · subst hv; simp [findLive, ha] at hf
      · simpa [findLive, ha, hv] using ih (by simpa [findLive, ha, hv] using hf)

theorem removeById_sublist (l : List InternObj) (i : Nat) :
    (removeById l i).Sublist l := by
  induction l with
  | nil => simp [removeById]
  | cons a rest ih =>
    by_cases hi : a.objID = i
    · simpa [removeById, hi] using List.sublist_cons_self a rest
    · simpa [removeById, hi] using List.Sublist.cons₂ a ih

end Intern

/-- C1: two content-equal live candidates registered in sequence through
`Intern.Instance`: the second call returns the same identity that the first
call returned, with `wasNew = false`, and the table is left exactly as the
first call left it — the second candidate is discarded without entering
the table. -/
theorem c1_dedup_sequential_register {V : Type} [DecidableEq V]
    (hashv : V → Nat) (heap : Nat → Option V) (d : Intern.HDict)
    (aId bId : Nat) (va : V) (ha : heap aId = some va) :
    (Intern.Instance hashv heap (Intern.Instance hashv heap d aId va).2 bId va).1.1
      = (Intern.Instance hashv heap d aId va).1.1
    ∧ (Intern.Instance hashv heap (Intern.Instance hashv heap d aId va).2 bId va).1.2
      = false
    ∧ (Intern.Instance hashv heap (Intern.Instance hashv heap d aId va).2 bId va).2
      = (Intern.Instance hashv heap d aId va).2 := by
  rcases hl : Intern.hlookup d (hashv va) with _ | s
  · have e1 : Intern.Instance hashv heap d aId va
        = ((aId, true), Intern.hinsert d (hashv va) (.single ⟨aId⟩)) := by
      simp [Intern.Instance, hl]
    have e2 : Intern.Instance hashv heap
          (Intern.hinsert d (hashv va) (.single ⟨aId⟩)) bId va
        = ((aId, false), Intern.hinsert d (hashv va) (.single ⟨aId⟩)) := by
      simp [Intern.Instance, Intern.hlookup_hinsert_self, ha]
    simp [e1, e2]
  · cases s with
    | single o =>
      rcases hw : heap o.objID with _ | w
      · have e1 : Intern.Instance hashv heap d aId va
            = ((aId, true), Intern.hinsert d (hashv va) (.list [o, ⟨aId⟩])) := by
          simp [Intern.Instance, hl, hw]
        have e2 : Intern.Instance hashv heap
              (Intern.hinsert d (hashv va) (.list [o, ⟨aId⟩])) bId va
            = ((aId, false), Intern.hinsert d (hashv va) (.list [o, ⟨aId⟩])) := by
          simp [Intern.Instance, Intern.hlookup_hinsert_self, Intern.findLive, hw, ha]
        simp [e1, e2]
      · by_cases hvw : va = w
        · subst hvw
          have e1 : Intern.Instance hashv heap d aId va = ((o.objID, false), d) := by
            simp [Intern.Instance, hl, hw]
          have e2 : Intern.Instance hashv heap d bId va = ((o.objID, false), d) := by
            simp [Intern.Instance, hl, hw]
          simp [e1, e2]
        · have e1 : Intern.Instance hashv heap d aId va
              = ((aId, true), Intern.hinsert d (hashv va) (.list [o, ⟨aId⟩])) := by
            simp [Intern.Instance, hl, hw, hvw]
          have e2 : Intern.Instance hashv heap
                (Intern.hinsert d (hashv va) (.list [o, ⟨aId⟩])) bId va
              = ((aId, false), Intern.hinsert d (hashv va) (.list [o, ⟨aId⟩])) := by
            simp [Intern.Instance, Intern.hlookup_hinsert_self, Intern.findLive,
              hw, hvw, ha]
          simp [e1, e2]
    | list l =>
      rcases l with _ | ⟨x, xs⟩
      · have e1 : Intern.Instance hashv heap d aId va
            = ((aId, true), Intern.hinsert d (hashv va) (.single ⟨aId⟩)) := by
          simp [Intern.Instance, hl]
        have e2 : Intern.Instance hashv heap
              (Intern.hinsert d (hashv va) (.single ⟨aId⟩)) bId va
            = ((aId, false), Intern.hinsert d (hashv va) (.single ⟨aId⟩)) := by
          simp [Intern.Instance, Intern.hlookup_hinsert_self, ha]
        simp [e1, e2]
      · rcases hf : Intern.findLive heap va (x :: xs) with _ | o
        · have e1 : Intern.Instance hashv heap d aId va
              = ((aId, true),
                  Intern.hinsert d (hashv va) (.list (x :: (xs ++ [⟨aId⟩])))) := by
            simp [Intern.Instance, hl, hf]
          have hfa : Intern.findLive heap va (x :: (xs ++ [⟨aId⟩]))
              = some ⟨aId⟩ := by
            have h2 := Intern.findLive_append heap va
              [(⟨aId⟩ : Intern.InternObj)] hf
            simpa [Intern.findLive, ha] using h2
          have e2 : Intern.Instance hashv heap
                (Intern.hinsert d (hashv va) (.list (x :: (xs ++ [⟨aId⟩])))) bId va
              = ((aId, false),
                  Intern.hinsert d (hashv va) (.list (x :: (xs ++ [⟨aId⟩])))) := by
            simp [Intern.Instance, Intern.hlookup_hinsert_self, hfa]
          simp [e1, e2]
        · have e1 : Intern.Instance hashv heap d aId va = ((o.objID, false), d) := by
            simp [Intern.Instance, hl, hf]
          have e2 : Intern.Instance hashv heap d bId va = ((o.objID, false), d) := by
            simp [Intern.Instance, hl, hf]
          simp [e1, e2]

/-- C1 witness: concrete run over `Nat` contents with both candidates live
and content-equal; the dedup theorem applies and its hypothesis is
discharged by evaluation. -/
theorem c1_dedup_sequential_register_witness :
    (Intern.Instance (fun _ => 0) (fun i => if i ≤ 2 then some 5 else none)
        (Intern.Instance (fun _ => 0) (fun i => if i ≤ 2 then some 5 else none)
          [] 1 5).2 2 5).1.1
      = (Intern.Instance (fun _ => 0) (fun i => if i ≤ 2 then some 5 else none)
          [] 1 5).1.1
    ∧ (Intern.Instance (fun _ => 0) (fun i => if i ≤ 2 then some 5 else none)
        (Intern.Instance (fun _ => 0) (fun i => if i ≤ 2 then some 5 else none)
          [] 1 5).2 2 5).1.2
      = false
    ∧ (Intern.Instance (fun _ => 0) (fun i => if i ≤ 2 then some 5 else none)
        (Intern.Instance (fun _ => 0) (fun i => if i ≤ 2 then some 5 else none)
          [] 1 5).2 2 5).2
      = (Intern.Instance (fun _ => 0) (fun i => if i ≤ 2 then some 5 else none)
          [] 1 5).2 :=
  c1_dedup_sequential_register (fun _ => 0)
    (fun i => if i ≤ 2 then some 5 else none) [] 1 2 5 (by decide)

/-- C5: hash collision in `Intern.Instance`.  With a live canonical `aId`
of content `va` in a singleton slot, registering a live content-unequal
candidate `bId` whose content `vb` has the same hash upgrades the slot to
the two-element list `[aId, bId]` and returns `(bId, true)`; afterwards a
content-equal registration retrieves `aId`, respectively `bId`, as distinct
canonicals, each with `wasNew = false` and with the table unchanged. -/
theorem c5_collision_tolerance {V : Type} [DecidableEq V]
    (hashv : V → Nat) (heap : Nat → Option V) (d : Intern.HDict)
    (aId bId cId eId : Nat) (va vb : V)
    (hne : va ≠ vb) (hh : hashv vb = hashv va)
    (hsl : Intern.hlookup d (hashv va) = some (.single ⟨aId⟩))
    (ha : heap aId = some va) (hb : heap bId = some vb) :
    Intern.Instance hashv heap d bId vb
      = ((bId, true), Intern.hinsert d (hashv va) (.list [⟨aId⟩, ⟨bId⟩]))
    ∧ Intern.Instance hashv heap
        (Intern.hinsert d (hashv va) (.list [⟨aId⟩, ⟨bId⟩])) cId va
      = ((aId, false), Intern.hinsert d (hashv va) (.list [⟨aId⟩, ⟨bId⟩]))
    ∧ Intern.Instance hashv heap
        (Intern.hinsert d (hashv va) (.list [⟨aId⟩, ⟨bId⟩])) eId vb
      = ((bId, false), Intern.hinsert d (hashv va) (.list [⟨aId⟩, ⟨bId⟩])) := by
  have hne' : vb ≠ va := fun h => hne h.symm
  refine ⟨?_, ?_, ?_⟩
  · simp [Intern.Instance, hh, hsl, ha, hne']
  · simp [Intern.Instance, Intern.hlookup_hinsert_self, Intern.findLive, ha]
  · simp [Intern.Instance, hh, Intern.hlookup_hinsert_self, Intern.findLive,
      ha, hb, hne']

/-- C5 witness: concrete collision run (a constant hash function makes the
two contents collide); the collision theorem applies and its hypotheses
are discharged by evaluation. -/
theorem c5_collision_tolerance_witness :
    Intern.Instance (fun _ => 0) heapC5 [(0, .single ⟨1⟩)] 2 20
      = ((2, true), Intern.hinsert [(0, .single ⟨1⟩)] 0 (.list [⟨1⟩, ⟨2⟩]))
    ∧ Intern.Instance (fun _ => 0) heapC5
        (Intern.hinsert [(0, .single ⟨1⟩)] 0 (.list [⟨1⟩, ⟨2⟩])) 3 10
      = ((1, false), Intern.hinsert [(0, .single ⟨1⟩)] 0 (.list [⟨1⟩, ⟨2⟩]))
    ∧ Intern.Instance (fun _ => 0) heapC5
        (Intern.hinsert [(0, .single ⟨1⟩)] 0 (.list [⟨1⟩, ⟨2⟩])) 4 20
      = ((2, false), Intern.hinsert [(0, .single ⟨1⟩)] 0 (.list [⟨1⟩, ⟨2⟩])) :=
  c5_collision_tolerance (fun _ => 0) heapC5 [(0, .single ⟨1⟩)] 1 2 3 4 10 20
    (by decide) rfl (by simp [Intern.hlookup]) (by simp [heapC5]) (by simp [heapC5])

/-- C6: the at-most-one-live-canonical invariant `Intern.NoDupLive` — no
table slot holds two records whose referents are both live and
content-equal — is preserved by `Intern.Instance` for any live candidate
and by `Intern.delFn` for any teardown: the register path adds a handle
only after its scan found no live content-equal entry in the slot. -/
theorem c6_no_coexisting_live_equal {V : Type} [DecidableEq V]
    (hashv : V → Nat) (heap : Nat → Option V) (d : Intern.HDict)
    (hInv : Intern.NoDupLive heap d) :
    (∀ newId v, heap newId = some v →
        Intern.NoDupLive heap (Intern.Instance hashv heap d newId v).2)
    ∧ (∀ selfId v, Intern.NoDupLive heap (Intern.delFn hashv d selfId v)) := by
  constructor
  · intro newId v hv
    rcases hl : Intern.hlookup d (hashv v) with _ | s
    · have e1 : (Intern.Instance hashv heap d newId v).2
          = Intern.hinsert d (hashv v) (.single ⟨newId⟩) := by
        simp [Intern.Instance, hl]
      rw [e1]
      intro p hp
      rcases Intern.mem_hinsert hp with h1 | h1
      · exact hInv p h1
      · subst h1; simp [Intern.slotEntries]
    · cases s with
      | single o =>
        rcases hw : heap o.objID with _ | w
        · have e1 : (Intern.Instance hashv heap d newId v).2
              = Intern.hinsert d (hashv v) (.list [o, ⟨newId⟩]) := by
            simp [Intern.Instance, hl, hw]
          rw [e1]
          intro p hp
          rcases Intern.mem_hinsert hp with h1 | h1
          · exact hInv p h1
          · subst h1
            show List.Pairwise (Intern.LiveDistinct heap) [o, ⟨newId⟩]
            refine List.pairwise_cons.mpr ⟨?_, by simp⟩
            intro b hb
            rw [List.mem_singleton] at hb
            subst hb
            intro va vb h1 h2
            simp [hw] at h1
        · by_cases hvw : v = w
          · subst hvw
            have e1 : (Intern.Instance hashv heap d newId v).2 = d := by
              simp [Intern.Instance, hl, hw]
            rw [e1]; exact hInv
          · have e1 : (Intern.Instance hashv heap d newId v).2
                = Intern.hinsert d (hashv v) (.list [o, ⟨newId⟩]) := by
              simp [Intern.Instance, hl, hw, hvw]
            rw [e1]
            intro p hp
            rcases Intern.mem_hinsert hp with h1 | h1
            · exact hInv p h1
            · subst h1
              show List.Pairwise (Intern.LiveDistinct heap) [o, ⟨newId⟩]
              refine List.pairwise_cons.mpr ⟨?_, by simp⟩
              intro b hb
              rw [List.mem_singleton] at hb
              subst hb
              intro va vb h1 h2
              have hva : va = w := by
                rw [hw] at h1
                injection h1 with h3
                exact h3.symm
              have hvb : vb = v := by
                rw [hv] at h2
                injection h2 with h3
                exact h3.symm
              rw [hva, hvb]
              intro h3
              exact hvw h3.symm
      | list l =>
        rcases l with _ | ⟨x, xs⟩
        · have e1 : (Intern.Instance hashv heap d newId v).2
              = Intern.hinsert d (hashv v) (.single ⟨newId⟩) := by
            simp [Intern.Instance, hl]
          rw [e1]
          intro p hp
          rcases Intern.mem_hinsert hp with h1 | h1
          · exact hInv p h1
          · subst h1; simp [Intern.slotEntries]
        · rcases hf : Intern.findLive heap v (x :: xs) with _ | o
          · have e1 : (Intern.Instance hashv heap d newId v).2
                = Intern.hinsert d (hashv v) (.list (x :: (xs ++ [⟨newId⟩]))) := by
              simp [Intern.Instance, hl, hf]
            rw [e1]
            intro p hp
            rcases Intern.mem_hinsert hp with h1 | h1
            · exact hInv p h1
            · subst h1
              have hPl : (x :: xs).Pairwise (Intern.LiveDistinct heap) := by
                have := hInv _ (Intern.hlookup_mem hl)
                simpa [Intern.slotEntries] using this
              have hcross : ∀ a ∈ x :: xs, ∀ b ∈ [(⟨newId⟩ : Intern.InternObj)],
                  Intern.LiveDistinct heap a b := by
                intro a haMem b hbMem
                simp only [List.mem_singleton] at hbMem
                subst hbMem
                intro va vb h1 h2
                have hva := Intern.findLive_none hf a haMem va h1
                have hvb : vb = v := by
                  rw [hv] at h2
                  injection h2 with h3
                  exact h3.symm
                rw [hvb]
                intro hab
                exact hva hab.symm
              have : ((x :: xs) ++ [(⟨newId⟩ : Intern.InternObj)]).Pairwise
                  (Intern.LiveDistinct heap) :=
                List.pairwise_append.mpr ⟨hPl, by simp, hcross⟩
              simpa [Intern.slotEntries] using this
          · have e1 : (Intern.Instance hashv heap d newId v).2 = d := by
              simp [Intern.Instance, hl, hf]
            rw [e1]; exact hInv
  · intro selfId v
    rcases hl : Intern.hlookup d (hashv v) with _ | s
    · have e : Intern.delFn hashv d selfId v = d := by simp [Intern.delFn, hl]
      rw [e]; exact hInv
    · cases s with
      | single o =>
        by_cases hid : selfId = o.objID
        · have e : Intern.delFn hashv d selfId v = Intern.herase d (hashv v) := by
            simp [Intern.delFn, hl, hid]
          rw [e]
          intro p hp
          exact hInv p (Intern.mem_herase hp)
        · have e : Intern.delFn hashv d selfId v = d := by
            simp [Intern.delFn, hl, hid]
          rw [e]; exact hInv
      | list l =>
        have e : Intern.delFn hashv d selfId v
            = Intern.hinsert d (hashv v) (.list (Intern.removeById l selfId)) := by
          simp [Intern.delFn, hl]
        rw [e]
        intro p hp
        rcases Intern.mem_hinsert hp with h1 | h1
        · exact hInv p h1
        · subst h1
          have hPl : l.Pairwise (Intern.LiveDistinct heap) := by
            have := hInv _ (Intern.hlookup_mem hl)
            simpa [Intern.slotEntries] using this
          simpa [Intern.slotEntries] using
            hPl.sublist (Intern.removeById_sublist l selfId)

/-- C6 witness: the invariant-preservation theorem applied to a concrete
table, heap, registration and teardown, with every hypothesis discharged
by evaluation. -/
theorem c6_no_coexisting_live_equal_witness :
    Intern.NoDupLive heapW (Intern.Instance (fun _ => 0) heapW [] 5 5).2
    ∧ Intern.NoDupLive heapW (Intern.delFn (V := Nat) (fun _ => 0) [] 3 7) :=
  ⟨(c6_no_coexisting_live_equal (V := Nat) (fun _ => 0) heapW []
      (by intro p hp; simp at hp)).1 5 5 rfl,
    (c6_no_coexisting_live_equal (V := Nat) (fun _ => 0) heapW []
      (by intro p hp; simp at hp)).2 3 7⟩

namespace Py36

theorem keytuple_pyobjT (sId n : Nat) (fs : PyList) (r : Bool) :
    KeyTuple sId (.pyobjT n fs) r
      = .tup ((genElems sId fs).snoc (.typeTag (.tcls n))) := by
  cases r <;> rfl

theorem keytuple_pylist (sId : Nat) (xs : PyList) (r : Bool) :
    KeyTuple sId (.pylist xs) r
      = .tup ((genElems sId xs).snoc (.typeTag .tlist)) := by
  cases r <;> rfl

theorem keytuple_pytuple (sId : Nat) (xs : PyList) (r : Bool) :
    KeyTuple sId (.pytuple xs) r
      = .tup ((genElems sId xs).snoc (.typeTag .ttuple)) := by
  cases r <;> rfl

theorem keytuple_pydict (sId : Nat) (kvs : PyKVs) (r : Bool) :
    KeyTuple sId (.pydict kvs) r
      = .tup ((genItems sId kvs).snoc (.typeTag .tdict)) := by
  cases r <;> rfl

theorem keytuple_items_as_pairs (sId : Nat) (k v : PyVal) (rest : PyKVs) :
    genItems sId (.cons k v rest)
      = .cons (KeyTuple sId (.pytuple (.cons k (.cons v .nil))) true)
          (genItems sId rest) := rfl

theorem snoc_ne_nil (ks : KeyList) (k : Key) :
    KeyList.snoc ks k ≠ KeyList.nil := by
  cases ks <;> simp [KeyList.snoc]

theorem snoc_last : ∀ (as bs : KeyList) (a b : Key),
    KeyList.snoc as a = KeyList.snoc bs b → a = b
  | .nil, .nil, a, b, h => by
      simp [KeyList.snoc] at h
      exact h
  | .nil, .cons y ys, a, b, h => by
      simp [KeyList.snoc] at h
      exact absurd h.2.symm (snoc_ne_nil ys b)
  | .cons x xs, .nil, a, b, h => by
      simp [KeyList.snoc] at h
      exact absurd h.2 (snoc_ne_nil xs a)
  | .cons x xs, .cons y ys, a, b, h => by
      simp [KeyList.snoc] at h
      exact snoc_last xs ys a b h.2

theorem keysEq_snoc_false (heap : Nat → Option PyVal) :
    ∀ (as bs : KeyList) (a b : Key), keyEq heap a b = false →
      keysEq heap (KeyList.snoc as a) (KeyList.snoc bs b) = false
  | .nil, .nil, a, b, hab => by simp [KeyList.snoc, keysEq, hab]
  | .nil, .cons y ys, a, b, hab => by
      have htail : keysEq heap KeyList.nil (KeyList.snoc ys b) = false := by
        cases ys <;> simp [KeyList.snoc, keysEq]
      simp [KeyList.snoc, keysEq, htail]
  | .cons x xs, .nil, a, b, hab => by
      have htail : keysEq heap (KeyList.snoc xs a) KeyList.nil = false := by
        cases xs <;> simp [KeyList.snoc, keysEq]
      simp [KeyList.snoc, keysEq, htail]
  | .cons x xs, .cons y ys, a, b, hab => by
      simp [KeyList.snoc, keysEq, keysEq_snoc_false heap xs ys a b hab]

theorem kerase_of_klookup_none (heap : Nat → Option PyVal) (d : KDict)
    (k : Key) (h : klookup heap d k = none) : kerase heap d k = d := by
  induction d with
  | nil => rfl
  | cons p rest ih =>
    obtain ⟨k', r⟩ := p
    cases hkk : keyEq heap k k' with
    | true => simp [klookup, hkk] at h
    | false =>
      simp only [klookup, hkk] at h
      simp only [kerase, hkk]
      simp [ih (by simpa using h)]

end Py36

/-- C8: key derivation is recursive and type-tagged.  For a value with a
canonical decomposition (`astuple()`), and for the built-in composites
(list, tuple, dict — the dict decomposed via its `items()` entry pairs,
each keyed as a 2-tuple), the derived key is the tuple of the recursively
derived sub-value keys with the value's runtime type tag as the final
element; consequently a list or tuple and a dict holding the same elements
in the same order never derive equal keys — neither propositionally nor
under the table's key equality — and so never intern together. -/
theorem c8_type_tagged_recursive_keys :
    (∀ (sId n : Nat) (fs : Py36.PyList) (r : Bool),
        Py36.KeyTuple sId (.pyobjT n fs) r
          = .tup ((Py36.genElems sId fs).snoc (.typeTag (.tcls n))))
    ∧ (∀ (sId : Nat) (xs : Py36.PyList) (r : Bool),
        Py36.KeyTuple sId (.pylist xs) r
          = .tup ((Py36.genElems sId xs).snoc (.typeTag .tlist)))
    ∧ (∀ (sId : Nat) (xs : Py36.PyList) (r : Bool),
        Py36.KeyTuple sId (.pytuple xs) r
          = .tup ((Py36.genElems sId xs).snoc (.typeTag .ttuple)))
    ∧ (∀ (sId : Nat) (kvs : Py36.PyKVs) (r : Bool),
        Py36.KeyTuple sId (.pydict kvs) r
          = .tup ((Py36.genItems sId kvs).snoc (.typeTag .tdict)))
    ∧ (∀ (sId : Nat) (k v : Py36.PyVal) (rest : Py36.PyKVs),
        Py36.genItems sId (.cons k v rest)
          = .cons (Py36.KeyTuple sId (.pytuple (.cons k (.cons v .nil))) true)
              (Py36.genItems sId rest))
    ∧ (∀ (sId sId2 : Nat) (xs : Py36.PyList) (kvs : Py36.PyKVs) (r r2 : Bool),
        Py36.KeyTuple sId (.pylist xs) r ≠ Py36.KeyTuple sId2 (.pydict kvs) r2)
    ∧ (∀ (sId sId2 : Nat) (xs : Py36.PyList) (kvs : Py36.PyKVs) (r r2 : Bool),
        Py36.KeyTuple sId (.pytuple xs) r ≠ Py36.KeyTuple sId2 (.pydict kvs) r2)
    ∧ (∀ (heap : Nat → Option Py36.PyVal) (sId sId2 : Nat) (xs : Py36.PyList)
        (kvs : Py36.PyKVs) (r r2 : Bool),
        Py36.keyEq heap (Py36.KeyTuple sId (.pylist xs) r)
          (Py36.KeyTuple sId2 (.pydict kvs) r2) = false)
    ∧ (∀ (heap : Nat → Option Py36.PyVal) (sId sId2 : Nat) (xs : Py36.PyList)
        (kvs : Py36.PyKVs) (r r2 : Bool),
        Py36.keyEq heap (Py36.KeyTuple sId (.pytuple xs) r)
          (Py36.KeyTuple sId2 (.pydict kvs) r2) = false) := by
  refine ⟨Py36.keytuple_pyobjT, Py36.keytuple_pylist, Py36.keytuple_pytuple,
    Py36.keytuple_pydict, Py36.keytuple_items_as_pairs, ?_, ?_, ?_, ?_⟩
  · intro sId sId2 xs kvs r r2 h
    rw [Py36.keytuple_pylist, Py36.keytuple_pydict] at h
    have h2 := Py36.snoc_last _ _ _ _ (by injection h)
    simp at h2
  · intro sId sId2 xs kvs r r2 h
    rw [Py36.keytuple_pytuple, Py36.keytuple_pydict] at h
    have h2 := Py36.snoc_last _ _ _ _ (by injection h)
    simp at h2
  · intro heap sId sId2 xs kvs r r2
    rw [Py36.keytuple_pylist, Py36.keytuple_pydict]
    simp only [Py36.keyEq]
    exact Py36.keysEq_snoc_false heap _ _ _ _ rfl
  · intro heap sId sId2 xs kvs r r2
    rw [Py36.keytuple_pytuple, Py36.keytuple_pydict]
    simp only [Py36.keyEq]
    exact Py36.keysEq_snoc_false heap _ _ _ _ rfl

/-- C2: the dead-handle (benign race) case.  The claim's required behaviour
— overwrite the stale slot with a fresh handle and return
`(candidate, true)`, never a dead or null object — is not what either
source does.  `_details.RegisterObj` dereferences the stored dead weak
reference and returns Python `None` (`none`), leaving the stale entry in
place; `Intern.Instance` does return `(candidate, true)` but keeps the dead
record, upgrading the slot to the two-element list of the dead record and
the fresh one instead of overwriting it. -/
theorem c2_dead_handle_divergence :
    Py36.RegisterObj heapC2 dK1 2 vComposite = (none, dK1)
    ∧ Intern.Instance (fun _ => 0) (fun i => if i = 2 then some 5 else none)
        [(0, .single ⟨1⟩)] 2 5
      = ((2, true), [(0, .list [⟨1⟩, ⟨2⟩])]) :=
  ⟨rfl, rfl⟩

/-- C3: identity-matched erasure.  `Intern.delFn` erases a singleton slot's
key only when `id(self)` matches the stored `objID` (second and third
conjuncts: a discarded candidate's teardown leaves the canonical's entry
unchanged; the canonical's own teardown erases the key).  But
`_details.UnregisterObj` keeps no identity token and pops the key whenever
it is present: the teardown of discarded candidate 2 erases live canonical
1's entry (first conjunct), contradicting the claim. -/
theorem c3_unregister_identity_check_divergence :
    Py36.UnregisterObj heapLive dK1 2 vComposite = []
    ∧ Intern.delFn (fun _ => 0) [(0, .single ⟨1⟩)] 2 5 = [(0, .single ⟨1⟩)]
    ∧ Intern.delFn (fun _ => 0) [(0, .single ⟨1⟩)] 1 5 = [] :=
  ⟨rfl, rfl, rfl⟩

/-- C4: unregistering from a collision list.  `Support.UnregisterObj`
raises `TypeError` on any non-empty list slot (the source's loop compares
`obj == val()`, calling the list itself instead of the loop's weak
reference `r`), so the operation does not complete without error (first
conjunct, at a slot holding objects 1 and 2 and unregistering content 7 =
object 1's content).  `Intern.delFn` removes exactly the identity-matched
record but performs no collapse of a remaining single entry and no erasure
of an emptied key (second and third conjuncts). -/
theorem c4_list_unregister_divergence :
    Support.UnregisterObj (fun _ => 0)
        (fun i => if i = 1 then some 7 else if i = 2 then some 8 else none)
        [(0, Support.SVal.list [1, 2])] 7
      = .error .typeError
    ∧ Intern.delFn (fun _ => 0) [(0, .list [⟨1⟩, ⟨2⟩])] 1 5
      = [(0, .list [⟨2⟩])]
    ∧ Intern.delFn (fun _ => 0) [(0, .list [⟨1⟩])] 1 5 = [(0, .list [])] :=
  ⟨rfl, rfl, rfl⟩

/-- C7 counterexample: `Unregister` on an object that is not present in the
table is not a no-op.  Object 2 has no handle anywhere in the table (its
only stored reference is to object 1), yet `_details.UnregisterObj` for
object 2 pops the key and empties the table. -/
theorem c7_untracked_unregister_counterexample :
    Py36.UnregisterObj heapLive dK1 2 vComposite = []
    ∧ dK1 ≠ [] ∧ dK1.map Prod.snd = [1] :=
  ⟨rfl, by simp [dK1], rfl⟩

/-- C7 amended: `Unregister` on an object whose key maps to no slot raises
no error and leaves the table unchanged, both in `_details.UnregisterObj`
(`dct.pop(tup, None)`) and in `Support.UnregisterObj`
(`except KeyError: pass`). -/
theorem c7_amended_absent_key_unregister_noop {V : Type} [DecidableEq V]
    (heapP : Nat → Option Py36.PyVal) (d : Py36.KDict) (objId : Nat)
    (obj : Py36.PyVal)
    (h1 : Py36.klookup heapP d (Py36.KeyTuple objId obj false) = none)
    (hashv : V → Nat) (heapS : Nat → Option V) (ds : Support.SDict) (v : V)
    (h2 : Support.slookup ds (hashv v) = none) :
    Py36.UnregisterObj heapP d objId obj = d
    ∧ Support.UnregisterObj hashv heapS ds v = .ok ds := by
  constructor
  · exact Py36.kerase_of_klookup_none heapP d _ h1
  · simp [Support.UnregisterObj, h2]

/-- C7 amended witness: both unregister paths applied to empty tables, the
absent-key hypotheses discharged by evaluation. -/
theorem c7_amended_absent_key_unregister_noop_witness :
    Py36.UnregisterObj (fun _ => none) [] 0 (.atom 0) = ([] : Py36.KDict)
    ∧ Support.UnregisterObj (fun _ : Nat => 0) (fun _ => none) [] 0
      = .ok ([] : Support.SDict) :=
  c7_amended_absent_key_unregister_noop (fun _ => none) [] 0 (.atom 0) rfl
    (fun _ => 0) (fun _ => none) [] 0 rfl

/-- C9: `Internable.isInterned` tests bare key membership.  Object 2 was
never interned — the table's only stored reference is to object 1 — yet
`isInterned` for the live, content-equal object 2 returns `true`, because
the recomputed key tuple of a composite value contains no identity and
matches canonical 1's key.  The claim (and the method's own docstring)
require `false` here. -/
theorem c9_isInterned_membership_only :
    Py36.isInterned heapLive dK1 2 vComposite = true
    ∧ dK1.map Prod.snd = [1] :=
  ⟨rfl, rfl⟩

/-- C10: `MakeInterned` of `src/internbase.py` applied to an ordinary class
(one that is not an instance of `InternBase`, so the `isinstance` guard
fails) raises `ValueError` before constructing or registering anything —
the table comes back untouched; moreover no path of this function returns
normally (the guard-passing path reads the unbound name `argv`). -/
theorem c10_makeinterned_guard (d : Intern.HDict) :
    InternBase.MakeInterned false d = (.error .valueError, d)
    ∧ ∀ b : Bool, ∃ e : PyErr, InternBase.MakeInterned b d = (.error e, d) := by
  constructor
  · rfl
  · intro b
    cases b
    · exact ⟨.valueError, rfl⟩
    · exact ⟨.nameError, rfl⟩
